import Mathlib

/-!
Verification development for the nearsay server (Rust sources under `src/`).

The document store (`db.rs`), the cluster-index cache (`cache.rs`), the
clustering arithmetic (`cluster.rs`) and the socket handlers (`socket.rs`)
are shallowly embedded below.  Machine floats (`f64`) are modelled by `ℚ`;
integer counters stored in the document store are modelled by `ℤ`; BSON
documents of the `votes` collection are modelled by association lists of
string fields so that the exact field names used by each query filter are
visible.  Fallible operations return `Option`.
-/

namespace Nearsay

/-! ## `types.rs` : `VoteKind` -/

/-- Rust enum `VoteKind` from `types.rs` (variants `Like`, `Dislike`, `None`). -/
inductive VoteKind where
  | like
  | dislike
  | none
deriving DecidableEq

/-- Source `VoteKind::get_lifetime_weight` from `types.rs:95`:
number of days added/subtracted from post expiry as a result of this vote. -/
def VoteKind.getLifetimeWeight : VoteKind → ℤ
  | .none => 0
  | .like => 2
  | .dislike => -1

/-- Source `VoteKind::as_str` from `types.rs:103`. -/
def VoteKind.asStr : VoteKind → String
  | .like => "like"
  | .dislike => "dislike"
  | .none => "none"

/-- Source `VoteKind::from_str` from `types.rs:111`. -/
def VoteKind.fromStr (value : String) : VoteKind :=
  if value = "like" then .like
  else if value = "dislike" then .dislike
  else .none

/-! ## BSON documents of the `votes` collection

A vote document is an association list of string fields.  Field names
matter: `insert_vote` and `get_vote` address the post id under the field
name `"post_id"` while `delete_post` filters the `votes` collection on the
field name `"postId"`. -/

/-- A BSON document with string-valued fields, as stored in `votes`. -/
abbrev VDoc := List (String × String)

/-- Value of field `k` of a document (first occurrence), `none` if absent. -/
def VDoc.getField (d : VDoc) (k : String) : Option String :=
  (d.find? (fun kv => kv.1 == k)).map (fun kv => kv.2)

/-- Mongo equality filter `{ "post_id": postId, "uid": uid }` as used by
`get_vote` (db.rs:354), `insert_vote`'s update (db.rs:409, 422). -/
def voteFilterMatches (postId uid : String) (d : VDoc) : Bool :=
  d.getField "post_id" == some postId && d.getField "uid" == some uid

/-- Mongo equality filter `{ "postId": post_id }` as used by
`delete_post`'s `delete_many` (db.rs:314). -/
def postIdFilterMatches (postId : String) (d : VDoc) : Bool :=
  d.getField "postId" == some postId

/-- Mongo `$set { k: v }` on one document: overwrite the field if present,
append it otherwise. -/
def VDoc.setField (d : VDoc) (k v : String) : VDoc :=
  if (d.find? (fun kv => kv.1 == k)).isSome then
    d.map (fun kv => if kv.1 == k then (k, v) else kv)
  else
    d ++ [(k, v)]

/-- Mongo `delete_one(filter)`: remove the first matching document. -/
def deleteOne (filter : VDoc → Bool) : List VDoc → List VDoc
  | [] => []
  | d :: ds => if filter d then ds else d :: deleteOne filter ds

/-- Mongo `update_one(filter, {$set {kind}}).upsert(true)`: set the field on the
first matching document; if none matches, insert `mk` (the document built
by mongo from the equality filter plus the `$set` fields). -/
def updateOneUpsert (filter : VDoc → Bool) (kind : String) (mk : VDoc) :
    List VDoc → List VDoc
  | [] => [mk]
  | d :: ds =>
    if filter d then d.setField "kind" kind :: ds
    else d :: updateOneUpsert filter kind mk ds

/-! ## `db.rs` : the document store -/

/-- A `posts` document: the mutable counters and the (ghost) creation day.
`insert_post` (db.rs:324) sets `likes = dislikes = views = 0` and
`expiry = today + 7`; `createdDay` records that `today`. -/
structure PostDoc where
  likes : ℤ
  dislikes : ℤ
  views : ℤ
  expiry : ℤ
  createdDay : ℤ
deriving DecidableEq

/-- The document store: the `posts` collection keyed by `_id`, and the
`votes` collection as a list of documents. -/
structure Store where
  posts : String → Option PostDoc
  votes : List VDoc

/-- The store with no posts and no votes. -/
def emptyStore : Store := { posts := fun _ => Option.none, votes := [] }

/-- Source `NearsayDB::get_vote` (db.rs:351): `find_one {post_id, uid}` on `votes`;
absence means `VoteKind::None`, otherwise the `kind` field is decoded. -/
def getVote (st : Store) (uid postId : String) : VoteKind :=
  match st.votes.find? (voteFilterMatches postId uid) with
  | Option.none => .none
  | some d => VoteKind.fromStr ((d.getField "kind").getD "")

/-- The `delta_likes` binding of `insert_vote` (db.rs:372). -/
def deltaLikes (vote prevVote : VoteKind) : ℤ :=
  match vote with
  | .like => 1
  | _ => match prevVote with
         | .like => -1
         | _ => 0

/-- The `delta_dislikes` binding of `insert_vote` (db.rs:379). -/
def deltaDislikes (vote prevVote : VoteKind) : ℤ :=
  match vote with
  | .dislike => 1
  | _ => match prevVote with
         | .dislike => -1
         | _ => 0

/-- Source `NearsayDB::insert_vote` (db.rs:367): read the previous vote, no-op if
unchanged, otherwise `$inc` the post counters and update the `votes`
collection (delete one row for `None`, upsert otherwise). -/
def insertVote (st : Store) (uid postId : String) (vote : VoteKind) : Store :=
  if vote = getVote st uid postId then st
  else
    { posts := fun pid =>
        if pid = postId then
          (st.posts pid).map (fun p =>
            { p with
                likes := p.likes + deltaLikes vote (getVote st uid postId),
                dislikes := p.dislikes + deltaDislikes vote (getVote st uid postId),
                expiry := p.expiry +
                  (vote.getLifetimeWeight -
                    (getVote st uid postId).getLifetimeWeight) })
        else st.posts pid,
      votes :=
        match vote with
        | .none => deleteOne (voteFilterMatches postId uid) st.votes
        | other =>
          updateOneUpsert (voteFilterMatches postId uid) other.asStr
            [("post_id", postId), ("uid", uid), ("kind", other.asStr)] st.votes }

/-- Source `NearsayDB::insert_post` (db.rs:324): insert a fresh post document with
zeroed counters and `expiry = today + 7`.  A duplicate `_id` makes
`insert_one` fail, leaving the store unchanged (the `Err` path). -/
def insertPost (st : Store) (id : String) (today : ℤ) : Store :=
  match st.posts id with
  | some _ => st
  | Option.none =>
    { st with posts := fun pid =>
        if pid = id then
          some { likes := 0, dislikes := 0, views := 0,
                 expiry := today + 7, createdDay := today }
        else st.posts pid }

/-- Source `NearsayDB::increment_view` (db.rs:439): `$inc { views: 1, expiry: 1 }`
on the post with the given `_id` (a no-op when the post is absent). -/
def incrementView (st : Store) (id : String) : Store :=
  { st with posts := fun pid =>
      if pid = id then
        (st.posts pid).map (fun p =>
          { p with views := p.views + 1, expiry := p.expiry + 1 })
      else st.posts pid }

/-- Source `NearsayDB::delete_post` (db.rs:305): delete the post document, then
`delete_many { "postId": post_id }` on `votes`.  Note the filter field name
`"postId"`, while vote rows are written with the field name `"post_id"`. -/
def deletePost (st : Store) (id : String) : Store :=
  { posts := fun pid => if pid = id then Option.none else st.posts pid,
    votes := st.votes.filter (fun d => !(postIdFilterMatches id d)) }

/-! ## C1 : deleting a post and its votes -/

/-- The store after: insert post `p1`; users `u1`, `u2` like it;
`delete_post("p1")`. -/
def c1State : Store :=
  deletePost
    (insertVote (insertVote (insertPost emptyStore "p1" 0) "u1" "p1" .like)
      "u2" "p1" .like)
    "p1"

/-- C1: after `delete_post("p1")` both likes are still present: `get_vote`
returns `Like` for both users and the `votes` collection still holds two
rows whose `post_id` field references the deleted post.  The purge fails
because `delete_post` filters votes on the field name `"postId"` while
`insert_vote` stores rows under the field name `"post_id"`. -/
theorem c1_delete_post_leaves_votes :
    getVote c1State "u1" "p1" = .like ∧
    getVote c1State "u2" "p1" = .like ∧
    c1State.votes.countP (fun d => d.getField "post_id" == some "p1") = 2 := by
  decide

/-! ## C2 : the expiry invariant -/

/-- The store operations allowed by claim C2: `insert_post`, `set_vote`
(`insert_vote`) and `increment_view`, with no deletions. -/
inductive StoreOp where
  | insertP (id : String) (today : ℤ)
  | setVote (uid postId : String) (v : VoteKind)
  | incView (id : String)

/-- Apply one store operation. -/
def applyOp (st : Store) : StoreOp → Store
  | .insertP id today => insertPost st id today
  | .setVote uid postId v => insertVote st uid postId v
  | .incView id => incrementView st id

/-- Run a sequence of store operations from the empty store. -/
def runOps (ops : List StoreOp) : Store := ops.foldl applyOp emptyStore

/-- The per-post expiry equation of the spec:
`expiry = created_day + 7 + views + 2·likes − dislikes`. -/
def expiryInvariant (p : PostDoc) : Prop :=
  p.expiry = p.createdDay + 7 + p.views + 2 * p.likes - p.dislikes

/-- The invariant, for every post of a store. -/
def storeInv (st : Store) : Prop :=
  ∀ id p, st.posts id = some p → expiryInvariant p

theorem storeInv_empty : storeInv emptyStore := by
  intro id p h
  simp [emptyStore] at h

theorem insertPost_posts (st : Store) (id : String) (today : ℤ) (pid : String) :
    (insertPost st id today).posts pid =
      match st.posts id with
      | some _ => st.posts pid
      | Option.none =>
        if pid = id then
          some { likes := 0, dislikes := 0, views := 0,
                 expiry := today + 7, createdDay := today }
        else st.posts pid := by
  unfold insertPost
  cases st.posts id <;> rfl

theorem insertVote_posts (st : Store) (uid postId : String) (v : VoteKind)
    (pid : String) :
    (insertVote st uid postId v).posts pid =
      if v = getVote st uid postId then st.posts pid
      else if pid = postId then
        (st.posts pid).map (fun p =>
          { p with
              likes := p.likes + deltaLikes v (getVote st uid postId),
              dislikes := p.dislikes + deltaDislikes v (getVote st uid postId),
              expiry := p.expiry +
                (v.getLifetimeWeight -
                  (getVote st uid postId).getLifetimeWeight) })
      else st.posts pid := by
  unfold insertVote
  split <;> rfl

theorem incrementView_posts (st : Store) (id pid : String) :
    (incrementView st id).posts pid =
      if pid = id then
        (st.posts pid).map (fun p =>
          { p with views := p.views + 1, expiry := p.expiry + 1 })
      else st.posts pid := rfl

theorem storeInv_insertPost (st : Store) (id : String) (today : ℤ)
    (h : storeInv st) : storeInv (insertPost st id today) := by
  intro pid p hp
  rw [insertPost_posts] at hp
  cases hpost : st.posts id with
  | none =>
    rw [hpost] at hp
    by_cases hid : pid = id
    · rw [if_pos hid] at hp
      cases hp
      simp [expiryInvariant]
    · rw [if_neg hid] at hp
      exact h pid p hp
  | some q =>
    rw [hpost] at hp
    exact h pid p hp

/-- The `$inc` weights of `insert_vote` satisfy
`Δexpiry = 2·Δlikes − Δdislikes` whenever the new vote differs from the
previous one (the early-return case never updates). -/
theorem vote_weight_identity (vote prevVote : VoteKind) (hne : vote ≠ prevVote) :
    vote.getLifetimeWeight - prevVote.getLifetimeWeight =
      2 * deltaLikes vote prevVote - deltaDislikes vote prevVote := by
  cases vote <;> cases prevVote <;>
    first
    | exact absurd rfl hne
    | decide

theorem storeInv_insertVote (st : Store) (uid postId : String) (v : VoteKind)
    (h : storeInv st) : storeInv (insertVote st uid postId v) := by
  intro pid p hp
  rw [insertVote_posts] at hp
  by_cases hv : v = getVote st uid postId
  · rw [if_pos hv] at hp
    exact h pid p hp
  · rw [if_neg hv] at hp
    by_cases hid : pid = postId
    · rw [if_pos hid] at hp
      cases hq : st.posts pid with
      | none => rw [hq] at hp; cases hp
      | some q =>
        rw [hq] at hp
        injection hp with hp
        subst hp
        have hinv := h pid q hq
        have hw := vote_weight_identity v (getVote st uid postId) hv
        unfold expiryInvariant at hinv ⊢
        simp only
        omega
    · rw [if_neg hid] at hp
      exact h pid p hp

theorem storeInv_incrementView (st : Store) (id : String)
    (h : storeInv st) : storeInv (incrementView st id) := by
  intro pid p hp
  rw [incrementView_posts] at hp
  by_cases hid : pid = id
  · rw [if_pos hid] at hp
    cases hq : st.posts pid with
    | none => rw [hq] at hp; cases hp
    | some q =>
      rw [hq] at hp
      injection hp with hp
      subst hp
      have hinv := h pid q hq
      unfold expiryInvariant at hinv ⊢
      simp only
      omega
  · rw [if_neg hid] at hp
    exact h pid p hp

theorem storeInv_applyOp (st : Store) (op : StoreOp) (h : storeInv st) :
    storeInv (applyOp st op) := by
  cases op with
  | insertP id today => exact storeInv_insertPost st id today h
  | setVote uid postId v => exact storeInv_insertVote st uid postId v h
  | incView id => exact storeInv_incrementView st id h

theorem storeInv_foldl (ops : List StoreOp) :
    ∀ st : Store, storeInv st → storeInv (ops.foldl applyOp st) := by
  induction ops with
  | nil => intro st h; exact h
  | cons op rest ih =>
    intro st h
    exact ih (applyOp st op) (storeInv_applyOp st op h)

/-- C2: after any sequence of `insert_post`, `set_vote` and
`increment_view` operations (and no deletions), every post in the store
satisfies `expiry = created_day + 7 + views + 2·likes − dislikes`. -/
theorem c2_expiry_invariant (ops : List StoreOp) (id : String) (p : PostDoc)
    (h : (runOps ops).posts id = some p) : expiryInvariant p :=
  storeInv_foldl ops emptyStore storeInv_empty id p h

/-- Witness for C2 at a concrete history: insert post `p` at day 5, like
it, view it once; the resulting counters satisfy the expiry equation. -/
theorem c2_expiry_invariant_witness :
    (runOps [.insertP "p" 5, .setVote "u" "p" .like, .incView "p"]).posts "p" =
      some { likes := 1, dislikes := 0, views := 1, expiry := 15, createdDay := 5 } ∧
    expiryInvariant
      { likes := 1, dislikes := 0, views := 1, expiry := 15, createdDay := 5 } :=
  ⟨by decide, c2_expiry_invariant [.insertP "p" 5, .setVote "u" "p" .like, .incView "p"]
    "p" _ (by decide)⟩

/-! ## C7 : vote round trip -/

theorem insertVote_votes (st : Store) (uid postId : String) (v : VoteKind) :
    (insertVote st uid postId v).votes =
      if v = getVote st uid postId then st.votes
      else
        match v with
        | .none => deleteOne (voteFilterMatches postId uid) st.votes
        | other =>
          updateOneUpsert (voteFilterMatches postId uid) other.asStr
            [("post_id", postId), ("uid", uid), ("kind", other.asStr)]
            st.votes := by
  unfold insertVote
  split <;> rfl

/-- With no matching document, the upsert appends the new document. -/
theorem updateOneUpsert_of_no_match (filter : VDoc → Bool) (kind : String)
    (mk : VDoc) (l : List VDoc) (h : ∀ d ∈ l, filter d = false) :
    updateOneUpsert filter kind mk l = l ++ [mk] := by
  induction l with
  | nil => rfl
  | cons d ds ih =>
    have hd : filter d = false := h d (List.mem_cons_self d ds)
    simp only [updateOneUpsert, hd, Bool.false_eq_true, if_false, List.cons_append,
      List.cons.injEq, true_and]
    exact ih (fun x hx => h x (List.mem_cons_of_mem d hx))

/-- With no match in the prefix, `find?` finds the appended document. -/
theorem find?_append_singleton (filter : VDoc → Bool) (mk : VDoc)
    (l : List VDoc) (h : ∀ d ∈ l, filter d = false) (hmk : filter mk = true) :
    (l ++ [mk]).find? filter = some mk := by
  induction l with
  | nil => simp [List.find?, hmk]
  | cons d ds ih =>
    have hd : filter d = false := h d (List.mem_cons_self d ds)
    simp only [List.cons_append, List.find?, hd]
    exact ih (fun x hx => h x (List.mem_cons_of_mem d hx))

/-- With no match in the prefix, `delete_one` removes exactly the appended
matching document. -/
theorem deleteOne_append_singleton (filter : VDoc → Bool) (mk : VDoc)
    (l : List VDoc) (h : ∀ d ∈ l, filter d = false) (hmk : filter mk = true) :
    deleteOne filter (l ++ [mk]) = l := by
  induction l with
  | nil => simp [deleteOne, hmk]
  | cons d ds ih =>
    have hd : filter d = false := h d (List.mem_cons_self d ds)
    simp only [List.cons_append, deleteOne, hd, Bool.false_eq_true, if_false,
      List.cons.injEq, true_and]
    exact ih (fun x hx => h x (List.mem_cons_of_mem d hx))

/-- The fresh vote document written by the upsert of `insert_vote` matches
the filter `{post_id, uid}` it was upserted under. -/
theorem voteFilterMatches_mk (postId uid kind : String) :
    voteFilterMatches postId uid
      [("post_id", postId), ("uid", uid), ("kind", kind)] = true := by
  simp [voteFilterMatches, VDoc.getField, List.find?]

theorem getVote_eq_none_of_no_match (st : Store) (uid postId : String)
    (h : ∀ d ∈ st.votes, voteFilterMatches postId uid d = false) :
    getVote st uid postId = .none := by
  unfold getVote
  have : st.votes.find? (voteFilterMatches postId uid) = Option.none := by
    rw [List.find?_eq_none]
    intro x hx
    simp [h x hx]
  rw [this]

/-- C7: from a store holding no vote row for `(u, p)`,
`set_vote(u, p, Like)` followed by `set_vote(u, p, None)` restores every
post document (likes, dislikes and expiry included) and the votes
collection exactly, leaving no vote row for `(u, p)`. -/
theorem c7_vote_round_trip (st : Store) (u p : String)
    (h : ∀ d ∈ st.votes, voteFilterMatches p u d = false) :
    (insertVote (insertVote st u p .like) u p .none).posts = st.posts ∧
    (insertVote (insertVote st u p .like) u p .none).votes = st.votes ∧
    ∀ d ∈ (insertVote (insertVote st u p .like) u p .none).votes,
      voteFilterMatches p u d = false := by
  have hgv : getVote st u p = .none := getVote_eq_none_of_no_match st u p h
  have hne1 : ¬(VoteKind.like = getVote st u p) := by rw [hgv]; decide
  have hv1 : (insertVote st u p .like).votes =
      st.votes ++ [[("post_id", p), ("uid", u), ("kind", "like")]] := by
    rw [insertVote_votes, if_neg hne1]
    exact updateOneUpsert_of_no_match _ _ _ _ h
  have hgv1 : getVote (insertVote st u p .like) u p = .like := by
    unfold getVote
    rw [hv1, find?_append_singleton _ _ _ h (voteFilterMatches_mk p u "like")]
    rfl
  have hne2 : ¬(VoteKind.none = getVote (insertVote st u p .like) u p) := by
    rw [hgv1]; decide
  refine ⟨?_, ?_, ?_⟩
  · funext pid
    rw [insertVote_posts, if_neg hne2, insertVote_posts, if_neg hne1]
    by_cases hpid : pid = p
    · rw [if_pos hpid, if_pos hpid, Option.map_map]
      simp only [hgv, hgv1]
      cases hq : st.posts pid with
      | none => rfl
      | some q =>
        cases q
        simp only [Option.map_some', Function.comp_apply, deltaLikes,
          deltaDislikes, VoteKind.getLifetimeWeight, Option.some.injEq,
          PostDoc.mk.injEq, and_true, true_and]
        omega
    · rw [if_neg hpid, if_neg hpid]
  · rw [insertVote_votes, if_neg hne2, hv1]
    exact deleteOne_append_singleton _ _ _ h (voteFilterMatches_mk p u "like")
  · rw [insertVote_votes, if_neg hne2, hv1]
    show ∀ d ∈ deleteOne (voteFilterMatches p u) _, _
    rw [deleteOne_append_singleton _ _ _ h (voteFilterMatches_mk p u "like")]
    exact h

/-- Witness for C7: a concrete store with one post and one unrelated vote
row; liking then unliking restores it exactly. -/
theorem c7_vote_round_trip_witness :
    (∀ d ∈ (Store.mk
        (fun pid => if pid = "p1" then
          some { likes := 3, dislikes := 1, views := 2, expiry := 20, createdDay := 8 }
         else Option.none)
        [[("post_id", "q9"), ("uid", "u1"), ("kind", "like")]]).votes,
      voteFilterMatches "p1" "u1" d = false) ∧
    (insertVote (insertVote (Store.mk
        (fun pid => if pid = "p1" then
          some { likes := 3, dislikes := 1, views := 2, expiry := 20, createdDay := 8 }
         else Option.none)
        [[("post_id", "q9"), ("uid", "u1"), ("kind", "like")]]) "u1" "p1" .like)
        "u1" "p1" .none).votes =
      [[("post_id", "q9"), ("uid", "u1"), ("kind", "like")]] :=
  ⟨by decide, (c7_vote_round_trip _ "u1" "p1" (by decide)).2.1⟩

/-! ## C4 : the blurb carried by the geoquery projection -/

/-- Mongo's `$substrCP` aggregation operator: the substring starting at
code point `start` of code-point length `len`. -/
def substrCP (s : String) (start len : ℕ) : String :=
  ((s.data.drop start).take len).asString

/-- The `blurb` field of `Post::get_poi_projection` (types.rs:31):
`{ "$substrCP": [ "$body", 0, 10 ] }`, applied by `NearsayDB::geoquery`
(db.rs:481) to every post matched by the `$geoWithin` query. -/
def postPoiBlurb (body : String) : String := substrCP body 0 10

/-- The spec's description of the blurb: the leading 25 code points of the
post's body (spec §4.D and glossary). -/
def specBlurb (body : String) : String := (body.data.take 25).asString

/-- C4 counterexample: for a 26-code-point body the projection produces
the first 10 code points, not the first 25. -/
theorem c4_blurb_not_25_counterexample :
    postPoiBlurb "abcdefghijklmnopqrstuvwxyz" ≠
      specBlurb "abcdefghijklmnopqrstuvwxyz" := by
  decide

/-- C4 amended: the blurb produced by the geoquery projection is the first
10 code points of the body. -/
theorem c4_blurb_is_first_10 (body : String) :
    postPoiBlurb body = (body.data.take 10).asString := by
  simp [postPoiBlurb, substrCP]

/-! ## C5 : ordering of the delete-post pipeline

The `delete-post` socket handler (socket.rs:445) and `NearsayDB::delete_post`
(db.rs:305) are embedded as the sequence of external calls they perform on
the success path (valid token, existing post, matching author).  In
db.rs:308-309 the cluster-index/blurb deletion is commented out
(`// delete blurb from cache TODO`), and `MapCache::del_post` (cache.rs:259)
has no caller, so no cache call appears in the sequence. -/

/-- One external call of the delete-post pipeline. -/
inductive DelPostEvent where
  | storeGetPost (id : String)
  | storeDeletePostDoc (id : String)
  | storeDeleteVotes (id : String)
  | cacheDelPost (id : String)
  | broadcastPostDelete (id : String)
deriving DecidableEq

/-- Calls performed by `NearsayDB::delete_post` (db.rs:305-321), in order:
delete the post document, then delete votes by `postId`. -/
def deletePostDbEvents (id : String) : List DelPostEvent :=
  [.storeDeletePostDoc id, .storeDeleteVotes id]

/-- Calls performed by the `delete-post` handler (socket.rs:445-470) on the
authorized success path: fetch the post, run `NearsayDB::delete_post`,
broadcast `post-delete`. -/
def deletePostHandlerEvents (id : String) : List DelPostEvent :=
  .storeGetPost id :: (deletePostDbEvents id ++ [.broadcastPostDelete id])

/-- Does the event delete this post from the cluster-index cache? -/
def DelPostEvent.isClusterIndexDelete : DelPostEvent → Bool
  | .cacheDelPost _ => true
  | _ => false

/-- Does the event delete from the document store? -/
def DelPostEvent.isStoreDelete : DelPostEvent → Bool
  | .storeDeletePostDoc _ => true
  | .storeDeleteVotes _ => true
  | _ => false

/-- C5 evaluated at the failing input `"p1"`: the delete-post pipeline
performs document-store deletions but contains no cluster-index deletion
at all, so in particular no cluster-index deletion precedes the store
deletion.  The post's cached cluster and blurb are left in place until the
nightly rebuild. -/
theorem c5_delete_never_touches_cluster_index :
    (deletePostHandlerEvents "p1").any DelPostEvent.isStoreDelete = true ∧
    (deletePostHandlerEvents "p1").any DelPostEvent.isClusterIndexDelete = false := by
  decide

/-! ## `socket.rs` geometry : tile chains of `broadcast_at_multiple`

Machine floats are modelled by `ℚ`.  The `Rect` of socket.rs carries
`left`, `right`, `top`, `bottom`. -/

/-- A rectangle in degree space (socket.rs / cache.rs `Rect`). -/
structure SRect where
  left : ℚ
  right : ℚ
  top : ℚ
  bottom : ℚ
deriving DecidableEq

/-- Modelled from the spec: the constant `WORLD_MAX_BOUND` imported by
socket.rs from `area` is not in `src/`; §3 fixes the square world's
half-side at `W = 180`. -/
def WORLD_MAX_BOUND : ℚ := 180

/-- Modelled from the spec: the constant `MAX_TILE_LAYER` imported by
socket.rs from `area` is not in `src/`; §3 and §4.F fix the tile layers at
`L ∈ 0..=19` with `Lmax = 19`. -/
def MAX_TILE_LAYER : ℕ := 19

/-- One step of the quadtree descent of `broadcast_at_multiple`
(socket.rs:531-538): halve the area, keeping the quadrant containing
`(x, y)`; a coordinate equal to the midline goes to the upper/right half
(`*x >= mid_x`, `*y >= mid_y`). -/
def descendStep (x y : ℚ) (area : SRect) : SRect :=
  { left :=
      if (area.left + area.right) / 2 ≤ x then (area.left + area.right) / 2
      else area.left,
    right :=
      if (area.left + area.right) / 2 ≤ x then area.right
      else (area.left + area.right) / 2,
    top :=
      if (area.top + area.bottom) / 2 ≤ y then area.top
      else (area.top + area.bottom) / 2,
    bottom :=
      if (area.top + area.bottom) / 2 ≤ y then (area.top + area.bottom) / 2
      else area.bottom }

/-- The starting area of the descent (socket.rs:522-527): the square world
`[-W, W]²`. -/
def initialBroadcastArea : SRect :=
  { left := -WORLD_MAX_BOUND, right := WORLD_MAX_BOUND,
    top := WORLD_MAX_BOUND, bottom := -WORLD_MAX_BOUND }

/-- The descent area after `L` halvings (the state of `area` when the room
of tile layer `L` is emitted). -/
def descendArea (x y : ℚ) : ℕ → SRect
  | 0 => initialBroadcastArea
  | L + 1 => descendStep x y (descendArea x y L)

/-- Tile side length at a layer: `2W / 2^L` (socket.rs:554, spec §4.A). -/
def tileSize (L : ℕ) : ℚ := 2 * WORLD_MAX_BOUND / 2 ^ L

/-- The floor-based south-west corner of the cell containing `v` at layer
`L` (the spec's `cell_for` / `cell_sw`). -/
def cellSW (v : ℚ) (L : ℕ) : ℚ :=
  -WORLD_MAX_BOUND + tileSize L * ⌊(v + WORLD_MAX_BOUND) / tileSize L⌋

/-- Rust `f64::round`: round half away from zero (socket.rs:581). -/
def rustRound (q : ℚ) : ℤ := if 0 ≤ q then ⌊q + 1 / 2⌋ else ⌈q - 1 / 2⌉

/-- Source `to_5_decimals` (socket.rs:580). -/
def to5Decimals (q : ℚ) : ℚ := (rustRound (q * 100000) : ℚ) / 100000

/-- Source `room_name` (socket.rs:576) up to string formatting: a room is
identified by its layer and its 5-decimal-rounded south-west corner. -/
def roomKey (L : ℕ) (left bottom : ℚ) : ℕ × ℚ × ℚ :=
  (L, to5Decimals left, to5Decimals bottom)

/-- The per-point room chain of `broadcast_at_multiple` (socket.rs:529-542):
the rooms of layers `1..=MAX_TILE_LAYER` named after the descent areas. -/
def pointTileChain (x y : ℚ) : List (ℕ × ℚ × ℚ) :=
  (List.range MAX_TILE_LAYER).map (fun i =>
    roomKey (i + 1) (descendArea x y (i + 1)).left (descendArea x y (i + 1)).bottom)

/-- All rooms targeted by `broadcast_at_multiple` (socket.rs:515-543): the
layer-0 world room joined once, then the chain of every point. -/
def broadcastRooms (pts : List (ℚ × ℚ)) : List (ℕ × ℚ × ℚ) :=
  roomKey 0 (-WORLD_MAX_BOUND) (-WORLD_MAX_BOUND) ::
    pts.flatMap (fun pr => pointTileChain pr.1 pr.2)

theorem tileSize_pos (L : ℕ) : 0 < tileSize L := by
  unfold tileSize WORLD_MAX_BOUND
  positivity

theorem tileSize_succ (L : ℕ) : tileSize (L + 1) = tileSize L / 2 := by
  unfold tileSize
  rw [pow_succ]
  ring

theorem cellSW_le (v : ℚ) (L : ℕ) : cellSW v L ≤ v := by
  have hts := tileSize_pos L
  have hfl := Int.floor_le ((v + WORLD_MAX_BOUND) / tileSize L)
  have h2 : tileSize L * (⌊(v + WORLD_MAX_BOUND) / tileSize L⌋ : ℚ) ≤
      tileSize L * ((v + WORLD_MAX_BOUND) / tileSize L) :=
    mul_le_mul_of_nonneg_left hfl (le_of_lt hts)
  rw [mul_div_cancel₀ _ (ne_of_gt hts)] at h2
  unfold cellSW
  linarith

theorem lt_cellSW_add (v : ℚ) (L : ℕ) : v < cellSW v L + tileSize L := by
  have hts := tileSize_pos L
  have hfl := Int.lt_floor_add_one ((v + WORLD_MAX_BOUND) / tileSize L)
  have h2 : tileSize L * ((v + WORLD_MAX_BOUND) / tileSize L) <
      tileSize L * ((⌊(v + WORLD_MAX_BOUND) / tileSize L⌋ : ℚ) + 1) :=
    (mul_lt_mul_left hts).mpr hfl
  rw [mul_div_cancel₀ _ (ne_of_gt hts)] at h2
  unfold cellSW
  linarith

theorem cellSW_zero (v : ℚ) (h1 : -WORLD_MAX_BOUND ≤ v) (h2 : v < WORLD_MAX_BOUND) :
    cellSW v 0 = -WORLD_MAX_BOUND := by
  have hfl : ⌊(v + WORLD_MAX_BOUND) / tileSize 0⌋ = 0 := by
    rw [Int.floor_eq_iff]
    constructor
    · push_cast
      rw [le_div_iff₀ (tileSize_pos 0)]
      linarith
    · push_cast
      rw [div_lt_iff₀ (tileSize_pos 0)]
      have : tileSize 0 = 2 * WORLD_MAX_BOUND := by
        unfold tileSize
        norm_num
      rw [this]
      linarith
  unfold cellSW
  rw [hfl]
  ring

/-- The halving step of the floor-based cell: one quadtree subdivision
moves the south-west corner to the midline exactly when the coordinate is
at or beyond the midline. -/
theorem cellSW_succ (v : ℚ) (L : ℕ) :
    cellSW v (L + 1) =
      if cellSW v L + tileSize L / 2 ≤ v then cellSW v L + tileSize L / 2
      else cellSW v L := by
  have hts := tileSize_pos L
  have hts2 : (0 : ℚ) < tileSize L / 2 := by linarith
  have hcell : cellSW v L =
      -WORLD_MAX_BOUND + tileSize L * ⌊(v + WORLD_MAX_BOUND) / tileSize L⌋ := rfl
  have hl : tileSize L * (⌊(v + WORLD_MAX_BOUND) / tileSize L⌋ : ℚ) ≤
      v + WORLD_MAX_BOUND := by
    have := cellSW_le v L
    rw [hcell] at this
    linarith
  have hu : v + WORLD_MAX_BOUND <
      tileSize L * ((⌊(v + WORLD_MAX_BOUND) / tileSize L⌋ : ℚ) + 1) := by
    have := lt_cellSW_add v L
    rw [hcell] at this
    linarith
  have hgoal : cellSW v (L + 1) =
      -WORLD_MAX_BOUND + tileSize L / 2 * ⌊(v + WORLD_MAX_BOUND) / (tileSize L / 2)⌋ := by
    unfold cellSW
    rw [tileSize_succ]
  by_cases h : cellSW v L + tileSize L / 2 ≤ v
  · have hcond : tileSize L * (⌊(v + WORLD_MAX_BOUND) / tileSize L⌋ : ℚ) +
        tileSize L / 2 ≤ v + WORLD_MAX_BOUND := by
      rw [hcell] at h
      linarith
    have hfl : ⌊(v + WORLD_MAX_BOUND) / (tileSize L / 2)⌋ =
        2 * ⌊(v + WORLD_MAX_BOUND) / tileSize L⌋ + 1 := by
      rw [Int.floor_eq_iff]
      constructor
      · rw [le_div_iff₀ hts2]
        push_cast
        linarith
      · rw [div_lt_iff₀ hts2]
        push_cast
        linarith
    rw [hgoal, hfl, if_pos h, hcell]
    push_cast
    ring
  · have hcond : v + WORLD_MAX_BOUND <
        tileSize L * (⌊(v + WORLD_MAX_BOUND) / tileSize L⌋ : ℚ) +
          tileSize L / 2 := by
      rw [hcell] at h
      push_neg at h
      linarith
    have hfl : ⌊(v + WORLD_MAX_BOUND) / (tileSize L / 2)⌋ =
        2 * ⌊(v + WORLD_MAX_BOUND) / tileSize L⌋ := by
      rw [Int.floor_eq_iff]
      constructor
      · rw [le_div_iff₀ hts2]
        push_cast
        linarith
      · rw [div_lt_iff₀ hts2]
        push_cast
        linarith
    rw [hgoal, hfl, if_neg h, hcell]
    push_cast
    ring

/-- The descent area after `L` steps is exactly the floor-based cell of
the point at layer `L`. -/
theorem descendArea_eq (x y : ℚ)
    (hx1 : -WORLD_MAX_BOUND ≤ x) (hx2 : x < WORLD_MAX_BOUND)
    (hy1 : -WORLD_MAX_BOUND ≤ y) (hy2 : y < WORLD_MAX_BOUND) (L : ℕ) :
    descendArea x y L =
      { left := cellSW x L, right := cellSW x L + tileSize L,
        top := cellSW y L + tileSize L, bottom := cellSW y L } := by
  induction L with
  | zero =>
    show initialBroadcastArea = _
    rw [cellSW_zero x hx1 hx2, cellSW_zero y hy1 hy2]
    unfold initialBroadcastArea tileSize WORLD_MAX_BOUND
    norm_num
  | succ L ih =>
    show descendStep x y (descendArea x y L) = _
    rw [ih]
    unfold descendStep
    simp only
    have hmx : (cellSW x L + (cellSW x L + tileSize L)) / 2 =
        cellSW x L + tileSize L / 2 := by ring
    have hmy : (cellSW y L + tileSize L + cellSW y L) / 2 =
        cellSW y L + tileSize L / 2 := by ring
    simp only [hmx, hmy]
    rw [cellSW_succ x L, cellSW_succ y L, tileSize_succ]
    by_cases hx : cellSW x L + tileSize L / 2 ≤ x <;>
      by_cases hy : cellSW y L + tileSize L / 2 ≤ y <;>
        simp only [hx, hy, if_pos, if_neg, if_true, if_false, ite_true,
          ite_false, SRect.mk.injEq] <;>
        refine ⟨by ring, by ring, by ring, by ring⟩

/-- C6: for every point strictly inside the world square, the iterative
quadtree descent of `broadcast_at_multiple` targets, at every tile layer
`L ∈ 0..=MAX_TILE_LAYER`, exactly the room whose south-west corner is the
floor-based cell `cell_sw(pos, L)`; and cell inclusion is
bottom-left-inclusive, top-right-exclusive, so a point exactly on a cell
edge belongs to the cell to its north-east. -/
theorem c6_broadcast_tile_chain (x y : ℚ)
    (hx1 : -WORLD_MAX_BOUND ≤ x) (hx2 : x < WORLD_MAX_BOUND)
    (hy1 : -WORLD_MAX_BOUND ≤ y) (hy2 : y < WORLD_MAX_BOUND) :
    broadcastRooms [(x, y)] =
      (List.range (MAX_TILE_LAYER + 1)).map (fun L =>
        roomKey L (cellSW x L) (cellSW y L)) ∧
    ∀ L : ℕ, cellSW x L ≤ x ∧ x < cellSW x L + tileSize L ∧
      cellSW y L ≤ y ∧ y < cellSW y L + tileSize L := by
  constructor
  · unfold broadcastRooms pointTileChain
    rw [List.range_succ_eq_map, List.map_cons, List.map_map]
    have h0 : roomKey 0 (-WORLD_MAX_BOUND) (-WORLD_MAX_BOUND) =
        roomKey 0 (cellSW x 0) (cellSW y 0) := by
      rw [cellSW_zero x hx1 hx2, cellSW_zero y hy1 hy2]
    rw [h0]
    simp only [List.flatMap_cons, List.flatMap_nil, List.append_nil,
      List.cons.injEq, true_and]
    apply List.map_congr_left
    intro i _
    rw [descendArea_eq x y hx1 hx2 hy1 hy2 (i + 1)]
    rfl
  · intro L
    exact ⟨cellSW_le x L, lt_cellSW_add x L, cellSW_le y L, lt_cellSW_add y L⟩

/-- Witness for C6 at the concrete point `(1/2, -13/4)`. -/
theorem c6_broadcast_tile_chain_witness :
    (-WORLD_MAX_BOUND ≤ (1 / 2 : ℚ) ∧ (1 / 2 : ℚ) < WORLD_MAX_BOUND ∧
      -WORLD_MAX_BOUND ≤ (-13 / 4 : ℚ) ∧ (-13 / 4 : ℚ) < WORLD_MAX_BOUND) ∧
    (broadcastRooms [((1 : ℚ) / 2, (-13 : ℚ) / 4)] =
      (List.range (MAX_TILE_LAYER + 1)).map (fun L =>
        roomKey L (cellSW (1 / 2) L) (cellSW (-13 / 4) L)) ∧
    ∀ L : ℕ, cellSW (1 / 2 : ℚ) L ≤ 1 / 2 ∧
      (1 / 2 : ℚ) < cellSW (1 / 2) L + tileSize L ∧
      cellSW (-13 / 4 : ℚ) L ≤ -13 / 4 ∧
      (-13 / 4 : ℚ) < cellSW (-13 / 4) L + tileSize L) :=
  ⟨⟨by norm_num [WORLD_MAX_BOUND], by norm_num [WORLD_MAX_BOUND],
    by norm_num [WORLD_MAX_BOUND], by norm_num [WORLD_MAX_BOUND]⟩,
    c6_broadcast_tile_chain (1 / 2) (-13 / 4)
      (by norm_num [WORLD_MAX_BOUND]) (by norm_num [WORLD_MAX_BOUND])
      (by norm_num [WORLD_MAX_BOUND]) (by norm_num [WORLD_MAX_BOUND])⟩

/-! ## `socket.rs` : the `view-shift` handler -/

/-- Constant `MIN_ZOOM_LEVEL` (cluster.rs:7). -/
def MIN_ZOOM_LEVEL : ℕ := 3

/-- Constant `MAX_ZOOM_LEVEL` (cluster.rs:8). -/
def MAX_ZOOM_LEVEL : ℕ := 19

/-- Struct `UserPOI` (cache.rs:469), over `ℚ`. -/
structure UserPOIM where
  id : String
  pos : ℚ × ℚ
  avatar : ℕ
  username : Option String
deriving DecidableEq

/-- Struct `Cluster` (cluster.rs:33), over `ℚ`. -/
structure ClusterM where
  pos : ℚ × ℚ
  size : Option ℕ
  id : String
  blurb : Option String
deriving DecidableEq

/-- Modelled from the spec: `Rect::valid_as_view` is called by the
`view-shift` handler (socket.rs:346) but is not defined in the `src/`
files; §4.A describes it as: top ≥ bottom, right ≥ left, at least one
dimension > 0, within world bounds (longitude in `[-180, 180]`, latitude
in `[-90, 90]`). -/
def validAsView (r : SRect) : Bool :=
  r.bottom ≤ r.top && r.left ≤ r.right &&
    (r.bottom < r.top || r.left < r.right) &&
    -180 ≤ r.left && r.right ≤ 180 && -90 ≤ r.bottom && r.top ≤ 90

/-- Source `join_rooms` (socket.rs:552-574): the grid of tiles of the pre-aligned
rect at the tile layer; Rust's `as usize` on a negative rounded value
saturates to `0`, hence `Int.toNat`. -/
def joinRooms (tileLayer : ℕ) (r : SRect) : List (ℕ × ℚ × ℚ) :=
  (List.range (rustRound ((r.right - r.left) /
      (WORLD_MAX_BOUND * 2 / 2 ^ tileLayer))).toNat).flatMap (fun xi =>
    (List.range (rustRound ((r.top - r.bottom) /
        (WORLD_MAX_BOUND * 2 / 2 ^ tileLayer))).toNat).map (fun yi =>
      roomKey tileLayer
        (r.left + xi * (WORLD_MAX_BOUND * 2 / 2 ^ tileLayer))
        (r.bottom + yi * (WORLD_MAX_BOUND * 2 / 2 ^ tileLayer))))

/-- The acknowledgement sent by the handler: a bare status code or the
`ViewShiftResponse` payload (socket.rs:19-23). -/
inductive Ack where
  | status (n : ℕ)
  | payload (posts : List ClusterM) (users : List UserPOIM)
deriving DecidableEq

/-- Rust's `Iterator::position` (socket.rs:364): index of the first
element satisfying the predicate. -/
def listPosition (p : α → Bool) : List α → Option ℕ
  | [] => Option.none
  | a :: as => if p a then some 0 else (listPosition p as).map (· + 1)

/-- Rust's `Vec::swap_remove(i)` (socket.rs:365): move the last element
into slot `i` and pop the last slot. -/
def swapRemove (l : List α) (i : ℕ) : List α :=
  match l.getLast? with
  | Option.none => l
  | some a => (l.set i a).dropLast

/-- The uid filter of `view-shift` (socket.rs:362-367): when a `uid` is
supplied, `swap_remove` the first user entry with that id. -/
def removeUidEntry (uid : Option String) (users : List UserPOIM) : List UserPOIM :=
  match uid with
  | Option.none => users
  | some u =>
    match listPosition (fun up => up.id == u) users with
    | Option.none => users
    | some i => swapRemove users i

/-- The per-rect loop of the `view-shift` handler (socket.rs:344-360),
threading the joined rooms and the accumulated posts and users.  The query
oracles `qp` / `qu` stand for `geoquery_post_pts` / `geoquery_users`
(`Option.none` = query error).  An early `ack` return carries the rooms
joined so far and the status code. -/
def vsLoop (tileLayer : ℕ) (qp : SRect → Option (List ClusterM))
    (qu : SRect → Option (List UserPOIM)) :
    List (Option SRect) → List (ℕ × ℚ × ℚ) → List ClusterM → List UserPOIM →
      Except (List (ℕ × ℚ × ℚ) × ℕ)
        (List (ℕ × ℚ × ℚ) × List ClusterM × List UserPOIM)
  | [], rooms, posts, users => .ok (rooms, posts, users)
  | Option.none :: rest, rooms, posts, users =>
    vsLoop tileLayer qp qu rest rooms posts users
  | some r :: rest, rooms, posts, users =>
    if validAsView r = false then .error (rooms, 422)
    else
      match qp r with
      | Option.none => .error (rooms ++ joinRooms tileLayer r, 500)
      | some ps =>
        match qu r with
        | Option.none => .error (rooms ++ joinRooms tileLayer r, 500)
        | some us =>
          vsLoop tileLayer qp qu rest (rooms ++ joinRooms tileLayer r)
            (posts ++ ps) (users ++ us)

/-- The `view-shift` handler (socket.rs:330-372): `leave_all` first (the
previous room set `rooms0` is discarded), then the zoom bound check
(`zoom < MIN_ZOOM_LEVEL || MAX_ZOOM_LEVEL < zoom → 422`), then the
per-rect loop, then the uid filter.  Returns the final joined rooms and
the acknowledgement. -/
def viewShift (rooms0 : List (ℕ × ℚ × ℚ)) (zoom tileLayer : ℕ)
    (view : List (Option SRect)) (uid : Option String)
    (qp : SRect → Option (List ClusterM)) (qu : SRect → Option (List UserPOIM)) :
    List (ℕ × ℚ × ℚ) × Ack :=
  if zoom < MIN_ZOOM_LEVEL ∨ MAX_ZOOM_LEVEL < zoom then ([], .status 422)
  else
    match vsLoop tileLayer qp qu view [] [] [] with
    | .error (rooms, code) => (rooms, .status code)
    | .ok (rooms, posts, users) =>
      (rooms, .payload posts (removeUidEntry uid users))

/-! ## C8 : view-shift validation -/

theorem vsLoop_ok (tileLayer : ℕ) (qp : SRect → Option (List ClusterM))
    (qu : SRect → Option (List UserPOIM))
    (hqp : ∀ r, qp r ≠ Option.none) (hqu : ∀ r, qu r ≠ Option.none)
    (view : List (Option SRect))
    (hval : ∀ r, some r ∈ view → validAsView r = true) :
    ∀ rooms posts users, vsLoop tileLayer qp qu view rooms posts users =
      .ok (rooms ++ (view.filterMap id).flatMap (joinRooms tileLayer),
           posts ++ (view.filterMap id).flatMap (fun r => (qp r).getD []),
           users ++ (view.filterMap id).flatMap (fun r => (qu r).getD [])) := by
  induction view with
  | nil => intro rooms posts users; simp [vsLoop]
  | cons hd rest ih =>
    intro rooms posts users
    cases hd with
    | none =>
      rw [show vsLoop tileLayer qp qu (Option.none :: rest) rooms posts users =
            vsLoop tileLayer qp qu rest rooms posts users from rfl]
      rw [ih (fun r hr => hval r (List.mem_cons_of_mem _ hr))]
      simp
    | some r =>
      have hvr : validAsView r = true := hval r (List.mem_cons_self _ _)
      cases hqpr : qp r with
      | none => exact absurd hqpr (hqp r)
      | some ps =>
        cases hqur : qu r with
        | none => exact absurd hqur (hqu r)
        | some us =>
          show (if validAsView r = false then _ else _) = _
          rw [hvr]
          simp only [Bool.true_eq_false, if_false, hqpr, hqur]
          rw [ih (fun r hr => hval r (List.mem_cons_of_mem _ hr))]
          simp [hqpr, hqur, List.append_assoc]

theorem vsLoop_err422 (tileLayer : ℕ) (qp : SRect → Option (List ClusterM))
    (qu : SRect → Option (List UserPOIM))
    (hqp : ∀ r, qp r ≠ Option.none) (hqu : ∀ r, qu r ≠ Option.none)
    (view : List (Option SRect))
    (hbad : ∃ r, some r ∈ view ∧ validAsView r = false) :
    ∀ rooms posts users, ∃ rooms',
      vsLoop tileLayer qp qu view rooms posts users = .error (rooms', 422) := by
  induction view with
  | nil =>
    obtain ⟨r, hr, _⟩ := hbad
    cases hr
  | cons hd rest ih =>
    intro rooms posts users
    cases hd with
    | none =>
      obtain ⟨r, hr, hv⟩ := hbad
      rcases List.mem_cons.mp hr with h | h
      · cases h
      · exact ih ⟨r, h, hv⟩ rooms posts users
    | some r0 =>
      by_cases hv0 : validAsView r0 = false
      · refine ⟨rooms, ?_⟩
        show (if validAsView r0 = false then _ else _) = _
        rw [hv0]
        simp
      · have hv0' : validAsView r0 = true := by
          cases h : validAsView r0
          · exact absurd h hv0
          · rfl
        have hbad' : ∃ r, some r ∈ rest ∧ validAsView r = false := by
          obtain ⟨r, hr, hv⟩ := hbad
          rcases List.mem_cons.mp hr with h | h
          · cases h
            rw [hv] at hv0'
            cases hv0'
          · exact ⟨r, h, hv⟩
        cases hqpr : qp r0 with
        | none => exact absurd hqpr (hqp r0)
        | some ps =>
          cases hqur : qu r0 with
          | none => exact absurd hqur (hqu r0)
          | some us =>
            obtain ⟨rooms', hrec⟩ :=
              ih hbad' (rooms ++ joinRooms tileLayer r0) (posts ++ ps) (users ++ us)
            refine ⟨rooms', ?_⟩
            show (if validAsView r0 = false then _ else _) = _
            rw [hv0']
            simp only [Bool.true_eq_false, if_false, hqpr, hqur]
            exact hrec

/-- C8: with the post and user queries succeeding, a `view-shift` request
is acknowledged with status 422 exactly when the requested zoom lies
outside `[MIN_ZOOM_LEVEL, MAX_ZOOM_LEVEL]` or some provided view rect is
not valid as a view; otherwise the request joins the tiles of each
provided rect and is acknowledged with the queried posts and users (the
uid filter applied). -/
theorem c8_view_shift_422 (rooms0 : List (ℕ × ℚ × ℚ)) (zoom tileLayer : ℕ)
    (view : List (Option SRect)) (uid : Option String)
    (qp : SRect → Option (List ClusterM)) (qu : SRect → Option (List UserPOIM))
    (hqp : ∀ r, qp r ≠ Option.none) (hqu : ∀ r, qu r ≠ Option.none) :
    ((viewShift rooms0 zoom tileLayer view uid qp qu).2 = .status 422 ↔
      (zoom < MIN_ZOOM_LEVEL ∨ MAX_ZOOM_LEVEL < zoom ∨
        ∃ r, some r ∈ view ∧ validAsView r = false)) ∧
    (¬(zoom < MIN_ZOOM_LEVEL ∨ MAX_ZOOM_LEVEL < zoom ∨
        ∃ r, some r ∈ view ∧ validAsView r = false) →
      viewShift rooms0 zoom tileLayer view uid qp qu =
        ((view.filterMap id).flatMap (joinRooms tileLayer),
          .payload ((view.filterMap id).flatMap (fun r => (qp r).getD []))
            (removeUidEntry uid
              ((view.filterMap id).flatMap (fun r => (qu r).getD []))))) := by
  by_cases hz : zoom < MIN_ZOOM_LEVEL ∨ MAX_ZOOM_LEVEL < zoom
  · have hz' : zoom < MIN_ZOOM_LEVEL ∨ MAX_ZOOM_LEVEL < zoom ∨
        ∃ r, some r ∈ view ∧ validAsView r = false := hz.imp id Or.inl
    constructor
    · unfold viewShift
      rw [if_pos hz]
      exact ⟨fun _ => hz', fun _ => rfl⟩
    · intro hno
      exact absurd hz' hno
  · by_cases hbad : ∃ r, some r ∈ view ∧ validAsView r = false
    · constructor
      · unfold viewShift
        rw [if_neg hz]
        obtain ⟨rooms', herr⟩ :=
          vsLoop_err422 tileLayer qp qu hqp hqu view hbad [] [] []
        rw [herr]
        simp [hbad]
      · intro hno
        exact absurd (Or.inr (Or.inr hbad)) hno
    · have hval : ∀ r, some r ∈ view → validAsView r = true := by
        intro r hr
        cases h : validAsView r
        · exact absurd ⟨r, hr, h⟩ hbad
        · rfl
      have hok := vsLoop_ok tileLayer qp qu hqp hqu view hval [] [] []
      constructor
      · unfold viewShift
        rw [if_neg hz, hok]
        simp only [List.nil_append]
        constructor
        · intro h
          cases h
        · intro h
          rcases h with h | h | h
          · exact absurd (Or.inl h) hz
          · exact absurd (Or.inr h) hz
          · exact absurd h hbad
      · intro _
        unfold viewShift
        rw [if_neg hz, hok]
        simp only [List.nil_append]

/-- Witness for C8: zoom 3, a single valid rect, queries returning empty
lists; the request is not rejected and the payload is acknowledged. -/
theorem c8_view_shift_422_witness :
    ((fun _ : SRect => some ([] : List ClusterM)) = fun _ => some []) ∧
    ((viewShift [] 3 4
        [some { left := 0, right := 1, top := 1, bottom := 0 }] Option.none
        (fun _ => some []) (fun _ => some [])).2 = Ack.status 422 ↔
      (3 < MIN_ZOOM_LEVEL ∨ MAX_ZOOM_LEVEL < 3 ∨
        ∃ r, some r ∈ [some { left := 0, right := 1, top := 1, bottom := 0 }] ∧
          validAsView r = false)) :=
  ⟨rfl,
    (c8_view_shift_422 [] 3 4
      [some { left := 0, right := 1, top := 1, bottom := 0 }] Option.none
      (fun _ => some []) (fun _ => some [])
      (fun _ h => Option.noConfusion h) (fun _ h => Option.noConfusion h)).1⟩

/-! ## C9 : room state of a rejected view-shift -/

/-- A valid view rect covering the whole world. -/
def wholeWorldView : SRect := { left := -180, right := 180, top := 90, bottom := -90 }

/-- An invalid view rect (bottom above top). -/
def invalidView : SRect := { left := 0, right := 1, top := 0, bottom := 1 }

/-- C9 counterexample: a request whose first rect is valid and second rect
is invalid is acknowledged with 422 yet leaves the session subscribed to
the rooms joined for the first rect — the room state after a 422 is not
always empty. -/
theorem c9_rooms_after_422_counterexample :
    (viewShift [(0, 0, 0)] 3 0 [some wholeWorldView, some invalidView]
        Option.none (fun _ => some []) (fun _ => some [])).2 = .status 422 ∧
    (viewShift [(0, 0, 0)] 3 0 [some wholeWorldView, some invalidView]
        Option.none (fun _ => some []) (fun _ => some [])).1 ≠ [] := by
  have hval : validAsView wholeWorldView = true := by decide
  have hinv : validAsView invalidView = false := by decide
  have hloop : vsLoop 0 (fun _ => some ([] : List ClusterM))
      (fun _ => some ([] : List UserPOIM))
      [some wholeWorldView, some invalidView] [] [] [] =
      .error (joinRooms 0 wholeWorldView, 422) := by
    simp [vsLoop, hval, hinv]
  have hzoom : ¬(3 < MIN_ZOOM_LEVEL ∨ MAX_ZOOM_LEVEL < 3) := by decide
  have hwidth : rustRound ((wholeWorldView.right - wholeWorldView.left) /
      (WORLD_MAX_BOUND * 2 / 2 ^ (0 : ℕ))) = 1 := by
    norm_num [rustRound, wholeWorldView, WORLD_MAX_BOUND]
  have hheight : rustRound ((wholeWorldView.top - wholeWorldView.bottom) /
      (WORLD_MAX_BOUND * 2 / 2 ^ (0 : ℕ))) = 1 := by
    norm_num [rustRound, wholeWorldView, WORLD_MAX_BOUND]
  constructor
  · unfold viewShift
    rw [if_neg hzoom, hloop]
  · unfold viewShift
    rw [if_neg hzoom, hloop]
    show joinRooms 0 wholeWorldView ≠ []
    unfold joinRooms
    rw [hwidth, hheight]
    simp

/-- C9 amended: the session leaves all previously joined rooms before any
validation runs (the handler's outcome is independent of the previous room
set); a request rejected for an out-of-range zoom leaves the session in no
rooms, and so does a request whose first view entry is an invalid rect; but
a 422 caused by a later rect leaves the session in the rooms joined for the
earlier valid rects. -/
theorem c9_leave_all_before_validation (rooms0 rooms1 : List (ℕ × ℚ × ℚ))
    (zoom tileLayer : ℕ) (view : List (Option SRect)) (uid : Option String)
    (qp : SRect → Option (List ClusterM)) (qu : SRect → Option (List UserPOIM)) :
    viewShift rooms0 zoom tileLayer view uid qp qu =
      viewShift rooms1 zoom tileLayer view uid qp qu ∧
    ((zoom < MIN_ZOOM_LEVEL ∨ MAX_ZOOM_LEVEL < zoom) →
      (viewShift rooms0 zoom tileLayer view uid qp qu).1 = []) ∧
    (∀ r rest, view = some r :: rest → validAsView r = false →
      ¬(zoom < MIN_ZOOM_LEVEL ∨ MAX_ZOOM_LEVEL < zoom) →
      (viewShift rooms0 zoom tileLayer view uid qp qu).1 = []) := by
  refine ⟨rfl, ?_, ?_⟩
  · intro hz
    unfold viewShift
    rw [if_pos hz]
  · intro r rest hview hv hz
    subst hview
    unfold viewShift
    rw [if_neg hz]
    have hstep : vsLoop tileLayer qp qu (some r :: rest) [] [] [] =
        .error ([], 422) := by
      show (if validAsView r = false then _ else _) = _
      rw [hv]
      simp
    rw [hstep]

/-- Witness for C9 (amended): an out-of-range zoom leaves no rooms even
though the session previously had a room. -/
theorem c9_leave_all_before_validation_witness :
    ((2 < MIN_ZOOM_LEVEL ∨ MAX_ZOOM_LEVEL < 2) ∧
      (viewShift [(7, 1, 2)] 2 4 [some wholeWorldView] Option.none
        (fun _ => some []) (fun _ => some [])).1 = []) :=
  ⟨by decide,
    (c9_leave_all_before_validation [(7, 1, 2)] [] 2 4 [some wholeWorldView]
      Option.none (fun _ => some []) (fun _ => some [])).2.1 (by decide)⟩

/-! ## C10 : the uid filter removes exactly one matching entry -/

theorem countP_set (p : α → Bool) :
    ∀ (l : List α) (i : ℕ) (a : α) (h : i < l.length),
      (l.set i a).countP p + (if p (l.get ⟨i, h⟩) then 1 else 0) =
        l.countP p + (if p a then 1 else 0) := by
  intro l
  induction l with
  | nil =>
    intro i a h
    exact absurd h (Nat.not_lt_zero i)
  | cons b bs ih =>
    intro i a h
    cases i with
    | zero =>
      show (a :: bs).countP p + (if p b then 1 else 0) =
        (b :: bs).countP p + (if p a then 1 else 0)
      rw [List.countP_cons, List.countP_cons]
      omega
    | succ i =>
      have h' : i < bs.length := Nat.lt_of_succ_lt_succ h
      show (b :: bs.set i a).countP p + (if p (bs.get ⟨i, h'⟩) then 1 else 0) =
        (b :: bs).countP p + (if p a then 1 else 0)
      rw [List.countP_cons, List.countP_cons]
      have := ih i a h'
      omega

theorem countP_dropLast (p : α → Bool) (l : List α) (h : l ≠ []) :
    l.dropLast.countP p + (if p (l.getLast h) then 1 else 0) = l.countP p := by
  conv_rhs => rw [← List.dropLast_append_getLast h]
  rw [List.countP_append, List.countP_cons, List.countP_nil]
  omega

theorem countP_swapRemove (p : α → Bool) (l : List α) (i : ℕ) (h : i < l.length) :
    (swapRemove l i).countP p + (if p (l.get ⟨i, h⟩) then 1 else 0) =
      l.countP p := by
  have hne : l ≠ [] := by
    intro he
    subst he
    exact absurd h (Nat.not_lt_zero i)
  unfold swapRemove
  rw [List.getLast?_eq_getLast_of_ne_nil hne]
  have hm_ne : l.set i (l.getLast hne) ≠ [] := by
    have : 0 < (l.set i (l.getLast hne)).length := by
      rw [List.length_set]
      omega
    exact List.ne_nil_of_length_pos this
  have hlast : (l.set i (l.getLast hne)).getLast hm_ne = l.getLast hne := by
    rw [List.getLast_eq_getElem]
    simp only [List.length_set, List.getElem_set]
    split
    · rfl
    · exact (List.getLast_eq_getElem l hne).symm
  show ((l.set i (l.getLast hne)).dropLast).countP p +
    (if p (l.get ⟨i, h⟩) then 1 else 0) = l.countP p
  have hd := countP_dropLast p (l.set i (l.getLast hne)) hm_ne
  rw [hlast] at hd
  have hs := countP_set p l i (l.getLast hne) h
  omega

theorem listPosition_spec (p : α → Bool) :
    ∀ (l : List α) (i : ℕ), listPosition p l = some i →
      ∃ h : i < l.length, p (l.get ⟨i, h⟩) = true := by
  intro l
  induction l with
  | nil =>
    intro i hi
    cases hi
  | cons a as ih =>
    intro i hi
    by_cases hpa : p a = true
    · have h0 : listPosition p (a :: as) = some 0 := by
        simp [listPosition, hpa]
      rw [h0] at hi
      injection hi with hi
      subst hi
      exact ⟨Nat.succ_pos _, hpa⟩
    · have hpa' : p a = false := by
        cases hh : p a
        · rfl
        · exact absurd hh hpa
      have hrw : listPosition p (a :: as) = (listPosition p as).map (· + 1) := by
        simp [listPosition, hpa']
      rw [hrw] at hi
      cases hrec : listPosition p as with
      | none =>
        rw [hrec] at hi
        cases hi
      | some j =>
        rw [hrec] at hi
        simp only [Option.map_some', Option.some.injEq] at hi
        obtain ⟨hj, hpj⟩ := ih j hrec
        subst hi
        exact ⟨Nat.succ_lt_succ hj, hpj⟩

theorem listPosition_of_countP_pos (p : α → Bool) :
    ∀ l : List α, 0 < l.countP p → ∃ i, listPosition p l = some i := by
  intro l
  induction l with
  | nil => intro h; simp [List.countP_nil] at h
  | cons a as ih =>
    intro h
    by_cases hpa : p a = true
    · exact ⟨0, by simp [listPosition, hpa]⟩
    · have hpa' : p a = false := by
        cases hh : p a
        · rfl
        · exact absurd hh hpa
      have has : 0 < as.countP p := by
        rw [List.countP_cons, hpa'] at h
        simpa using h
      obtain ⟨i, hi⟩ := ih has
      exact ⟨i + 1, by simp [listPosition, hpa', hi]⟩

/-- The uid filter removes exactly one matching entry when one exists. -/
theorem countP_removeUidEntry (u : String) (users : List UserPOIM)
    (h : 0 < users.countP (fun up => up.id == u)) :
    (removeUidEntry (some u) users).countP (fun up => up.id == u) =
      users.countP (fun up => up.id == u) - 1 := by
  obtain ⟨i, hi⟩ := listPosition_of_countP_pos _ users h
  obtain ⟨hlt, hp⟩ := listPosition_spec _ users i hi
  have hrw : removeUidEntry (some u) users = swapRemove users i := by
    show (match listPosition (fun up => up.id == u) users with
      | Option.none => users
      | some j => swapRemove users j) = swapRemove users i
    rw [hi]
  rw [hrw]
  have hc := countP_swapRemove (fun up => up.id == u) users i hlt
  rw [if_pos hp] at hc
  omega

/-- C10: when both view rects return one user entry with the supplied
`uid`, the `swap_remove`-based filter removes only one of them: the
acknowledged payload still contains exactly one entry with that uid. -/
theorem c10_uid_filter_keeps_one (rooms0 : List (ℕ × ℚ × ℚ))
    (zoom tileLayer : ℕ) (r1 r2 : SRect) (uid : String)
    (qp : SRect → Option (List ClusterM)) (qu : SRect → Option (List UserPOIM))
    (ps1 ps2 : List ClusterM) (us1 us2 : List UserPOIM)
    (hzl : MIN_ZOOM_LEVEL ≤ zoom) (hzh : zoom ≤ MAX_ZOOM_LEVEL)
    (hv1 : validAsView r1 = true) (hv2 : validAsView r2 = true)
    (hqp1 : qp r1 = some ps1) (hqp2 : qp r2 = some ps2)
    (hqu1 : qu r1 = some us1) (hqu2 : qu r2 = some us2)
    (hc1 : us1.countP (fun up => up.id == uid) = 1)
    (hc2 : us2.countP (fun up => up.id == uid) = 1) :
    ∃ posts users,
      (viewShift rooms0 zoom tileLayer [some r1, some r2] (some uid) qp qu).2 =
        .payload posts users ∧
      users.countP (fun up => up.id == uid) = 1 := by
  have hz : ¬(zoom < MIN_ZOOM_LEVEL ∨ MAX_ZOOM_LEVEL < zoom) := by omega
  have hloop : vsLoop tileLayer qp qu [some r1, some r2] [] [] [] =
      .ok (joinRooms tileLayer r1 ++ joinRooms tileLayer r2,
           ps1 ++ ps2, us1 ++ us2) := by
    simp [vsLoop, hv1, hv2, hqp1, hqp2, hqu1, hqu2]
  have hcount : (us1 ++ us2).countP (fun up => up.id == uid) = 2 := by
    rw [List.countP_append, hc1, hc2]
  refine ⟨ps1 ++ ps2, removeUidEntry (some uid) (us1 ++ us2), ?_, ?_⟩
  · unfold viewShift
    rw [if_neg hz, hloop]
  · rw [countP_removeUidEntry _ _ (by omega), hcount]

/-- Witness for C10: zoom 3, two identical valid rects, each user query
returning the single online user `"alice"`; the response keeps one
`"alice"` entry. -/
theorem c10_uid_filter_keeps_one_witness :
    ([UserPOIM.mk "alice" (0, 0) 1 Option.none].countP
        (fun up => up.id == "alice") = 1) ∧
    ∃ posts users,
      (viewShift [] 3 4
          [some { left := 0, right := 1, top := 1, bottom := 0 },
           some { left := 0, right := 1, top := 1, bottom := 0 }]
          (some "alice")
          (fun _ => some [])
          (fun _ => some [UserPOIM.mk "alice" (0, 0) 1 Option.none])).2 =
        .payload posts users ∧
      users.countP (fun up => up.id == "alice") = 1 :=
  ⟨by decide,
    c10_uid_filter_keeps_one [] 3 4
      { left := 0, right := 1, top := 1, bottom := 0 }
      { left := 0, right := 1, top := 1, bottom := 0 } "alice"
      (fun _ => some []) (fun _ => some [UserPOIM.mk "alice" (0, 0) 1 Option.none])
      [] [] [UserPOIM.mk "alice" (0, 0) 1 Option.none]
      [UserPOIM.mk "alice" (0, 0) 1 Option.none]
      (by decide) (by decide) (by decide) (by decide)
      rfl rfl rfl rfl (by decide) (by decide)⟩

/-! ## `cache.rs` : the cluster-index cache and `add_post_pt`

The redis state backing the cluster index: one geo-set `Zz` per cached
zoom (`geo`), the size keys `size:Zz:{id}` (`size`) and the blurb keys
`blurb:{id}` (`blurb`).  The `GEOSEARCH BYRADIUS` results consumed at
cache.rs:170 are an input `nearby` (the geospatial store is an external
collaborator).  A redis reply that fails the `Vec<usize>` conversion
(`.unwrap()` panic on a missing size) is modelled by `Option.none`. -/

/-- The post cache: per-zoom geo-sets, size keys and blurb keys. -/
structure PostsCache where
  geo : ℕ → String → Option (ℚ × ℚ)
  size : ℕ → String → Option ℕ
  blurb : String → Option String

/-- Constant `MIN_CACHED_ZOOM_LEVEL` (cache.rs:15). -/
def MIN_CACHED_ZOOM_LEVEL : ℕ := 3

/-- Constant `MAX_CACHED_ZOOM_LEVEL` (cache.rs:16). -/
def MAX_CACHED_ZOOM_LEVEL : ℕ := 5

/-- The cached zooms `MIN_CACHED_ZOOM_LEVEL..=MAX_CACHED_ZOOM_LEVEL`. -/
def cachedZooms : List ℕ := [3, 4, 5]

/-- Update one key of a two-level map. -/
def upd2 (f : ℕ → String → Option α) (z : ℕ) (id : String) (v : Option α) :
    ℕ → String → Option α :=
  fun z' id' => if z' = z ∧ id' = id then v else f z' id'

/-- Update one key of a one-level map. -/
def upd1 (f : String → Option α) (id : String) (v : Option α) :
    String → Option α :=
  fun id' => if id' = id then v else f id'

/-- Source `merge_clusters` (cluster.rs:23) over `ℚ`: the size-weighted mean. -/
def mergeClusters (x1 y1 : ℚ) (s1 : ℕ) (x2 y2 : ℚ) (s2 : ℕ) : ℚ × ℚ × ℕ :=
  ((s1 * x1 + s2 * x2) / (s1 + s2), (s1 * y1 + s2 * y2) / (s1 + s2), s1 + s2)

/-- Pipeline `pipe_nearby` (cache.rs:173-190): in traversal order, read each nearby
cluster's size and delete the cluster from the geo-set and the size keys. -/
def readSizesAndDel (c : PostsCache) :
    List (ℕ × String) → Option (List ℕ × PostsCache)
  | [] => some ([], c)
  | (z, id) :: rest => do
    let s ← c.size z id
    let c1 : PostsCache :=
      { c with geo := upd2 c.geo z id Option.none,
               size := upd2 c.size z id Option.none }
    let (ss, c2) ← readSizesAndDel c1 rest
    some (s :: ss, c2)

/-- The per-zoom merge fold (cache.rs:199-208): start from the new point
`(x, y, 1)` and fold in every nearby cluster with its pre-delete size. -/
def foldMergeZoom (x y : ℚ) (l : List ((ℚ × ℚ) × ℕ)) : ℚ × ℚ × ℕ :=
  l.foldl (fun acc pr => mergeClusters acc.1 acc.2.1 acc.2.2 pr.1.1 pr.1.2 pr.2)
    (x, y, 1)

/-- The `(zoom, id)` traversal order of the nearby clusters
(cache.rs:178-188): zoom 3 first, then 4, then 5, in geosearch order. -/
def nearbyPairs (nearby : ℕ → List (String × ℚ × ℚ)) : List (ℕ × String) :=
  (nearby 3).map (fun pr => (3, pr.1)) ++ (nearby 4).map (fun pr => (4, pr.1)) ++
    (nearby 5).map (fun pr => (5, pr.1))

/-- Pipeline `pipe_save` (cache.rs:193-213): per zoom, fold the nearby clusters
(paired with the sizes collected by `pipe_nearby`, consumed sequentially
across zooms) into the new cluster and write it under `clusterId`. -/
def writeNewClusters (c1 : PostsCache) (clusterId : String) (x y : ℚ)
    (nearby : ℕ → List (String × ℚ × ℚ)) (sizes : List ℕ) : PostsCache :=
  let s3 := sizes.take (nearby 3).length
  let s4 := (sizes.drop (nearby 3).length).take (nearby 4).length
  let s5 := (sizes.drop (nearby 3).length).drop (nearby 4).length
  let m3 := foldMergeZoom x y (((nearby 3).map (fun pr => pr.2)).zip s3)
  let m4 := foldMergeZoom x y (((nearby 4).map (fun pr => pr.2)).zip s4)
  let m5 := foldMergeZoom x y (((nearby 5).map (fun pr => pr.2)).zip s5)
  { c1 with
      geo := upd2 (upd2 (upd2 c1.geo 3 clusterId (some (m3.1, m3.2.1)))
        4 clusterId (some (m4.1, m4.2.1))) 5 clusterId (some (m5.1, m5.2.1)),
      size := upd2 (upd2 (upd2 c1.size 3 clusterId (some m3.2.2))
        4 clusterId (some m4.2.2)) 5 clusterId (some m5.2.2) }

/-- Pipeline `pipe_blurbs` (cache.rs:226-251): re-read (on the post-write state
`c2`) the size of every deleted id at every zoom; delete the blurb of each
deleted id that is a single on no zoom; then store the new blurb once if
the new point merged on no cluster at some zoom.  The `HashSet` iteration
order of the deleted ids is modelled by first-occurrence order; the
deletions target distinct keys, so any order yields the same state. -/
def blurbPhase (c2 : PostsCache) (clusterId blurb : String)
    (nearby : ℕ → List (String × ℚ × ℚ)) : String → Option String :=
  let blurb1 := ((nearbyPairs nearby).map (fun pr => pr.2)).dedup.foldl
    (fun b id =>
      if cachedZooms.any (fun z => c2.size z id == some 1) then b
      else upd1 b id Option.none) c2.blurb
  if (nearby 3).isEmpty || (nearby 4).isEmpty || (nearby 5).isEmpty then
    upd1 blurb1 clusterId (some blurb)
  else blurb1

/-- Source `MapCache::add_post_pt` (cache.rs:151-257), under the `"add post pt"`
lock.  `nearby z` is the `GEOSEARCH BYRADIUS` result on `Zz` around the
new point.  Step order: read the sizes of and delete every nearby cluster
(`pipe_nearby`); write the merged cluster per zoom under `clusterId`
(`pipe_save`); finally run the blurb policy (`pipe_blurbs`). -/
def addPostPt (c : PostsCache) (clusterId : String) (x y : ℚ) (blurb : String)
    (nearby : ℕ → List (String × ℚ × ℚ)) : Option PostsCache := do
  let (sizes, c1) ← readSizesAndDel c (nearbyPairs nearby)
  let c2 := writeNewClusters c1 clusterId x y nearby sizes
  some { c2 with blurb := blurbPhase c2 clusterId blurb nearby }

theorem readSizesAndDel_blurb :
    ∀ (pairs : List (ℕ × String)) (c : PostsCache) (sizes : List ℕ)
      (c1 : PostsCache), readSizesAndDel c pairs = some (sizes, c1) →
        c1.blurb = c.blurb := by
  intro pairs
  induction pairs with
  | nil =>
    intro c sizes c1 h
    injection h with h
    cases h
    rfl
  | cons pr rest ih =>
    intro c sizes c1 h
    obtain ⟨z, id⟩ := pr
    unfold readSizesAndDel at h
    cases hs : c.size z id with
    | none =>
      rw [hs] at h
      cases h
    | some s =>
      rw [hs] at h
      simp only [Option.bind_eq_bind, Option.some_bind] at h
      cases hrec : readSizesAndDel
          { c with geo := upd2 c.geo z id Option.none,
                   size := upd2 c.size z id Option.none } rest with
      | none =>
        rw [hrec] at h
        cases h
      | some val =>
        obtain ⟨ss, c2⟩ := val
        rw [hrec] at h
        simp only [Option.some_bind, Option.some.injEq] at h
        cases h
        have h2 := ih _ _ _ hrec
        exact h2

/-- Effect of the blurb-deletion fold: a key is cleared exactly when it is
one of the processed ids and its blurb is not required; other keys keep
their value. -/
theorem foldl_blurbDel (req : String → Bool) :
    ∀ (ids : List String) (b : String → Option String) (k : String),
      (ids.foldl (fun b id => if req id then b else upd1 b id Option.none) b) k =
        if k ∈ ids ∧ req k = false then Option.none else b k := by
  intro ids
  induction ids with
  | nil =>
    intro b k
    simp
  | cons a as ih =>
    intro b k
    rw [List.foldl_cons, ih]
    by_cases hmem : k ∈ as ∧ req k = false
    · rw [if_pos hmem, if_pos ⟨List.mem_cons_of_mem a hmem.1, hmem.2⟩]
    · rw [if_neg hmem]
      by_cases hk : k = a
      · subst hk
        by_cases hreq : req k = false
        · rw [if_neg (show ¬(req k = true) by simp [hreq])]
          rw [if_pos ⟨List.mem_cons_self k as, hreq⟩]
          unfold upd1
          rw [if_pos rfl]
        · have hreq' : req k = true := by
            cases h : req k
            · exact absurd h hreq
            · rfl
          rw [if_pos hreq']
          rw [if_neg (fun hcon => hreq hcon.2)]
      · have hrhs : ¬(k ∈ a :: as ∧ req k = false) := by
          intro hcon
          rcases List.mem_cons.mp hcon.1 with h | h
          · exact hk h
          · exact hmem ⟨h, hcon.2⟩
        rw [if_neg hrhs]
        by_cases hreq : req a = true
        · rw [if_pos hreq]
        · rw [if_neg hreq]
          unfold upd1
          rw [if_neg hk]

theorem writeNewClusters_blurb (c1 : PostsCache) (clusterId : String)
    (x y : ℚ) (nearby : ℕ → List (String × ℚ × ℚ)) (sizes : List ℕ) :
    (writeNewClusters c1 clusterId x y nearby sizes).blurb = c1.blurb := rfl

/-- The per-zoom writes only touch the key `clusterId`. -/
theorem writeNewClusters_size_ne (c1 : PostsCache) (clusterId : String)
    (x y : ℚ) (nearby : ℕ → List (String × ℚ × ℚ)) (sizes : List ℕ)
    (z : ℕ) (id : String) (hid : id ≠ clusterId) :
    (writeNewClusters c1 clusterId x y nearby sizes).size z id = c1.size z id := by
  unfold writeNewClusters
  simp [upd2, hid]

/-- The blurb of a deleted id after the blurb phase: cleared exactly when
no zoom retains it with size 1 on the post-write state. -/
theorem blurbPhase_ne (c2 : PostsCache) (clusterId blurb : String)
    (nearby : ℕ → List (String × ℚ × ℚ)) (k : String) (hk : k ≠ clusterId) :
    blurbPhase c2 clusterId blurb nearby k =
      if k ∈ ((nearbyPairs nearby).map (fun pr => pr.2)).dedup ∧
          (cachedZooms.any (fun z => c2.size z k == some 1)) = false then
        Option.none
      else c2.blurb k := by
  unfold blurbPhase
  by_cases hemp : ((nearby 3).isEmpty || (nearby 4).isEmpty || (nearby 5).isEmpty) = true
  · rw [if_pos hemp]
    unfold upd1
    rw [if_neg hk]
    exact foldl_blurbDel _ _ _ _
  · rw [if_neg hemp]
    exact foldl_blurbDel _ _ _ _

/-- The blurb stored under the inserted id after the blurb phase, when it
carried no blurb before: present exactly when some zoom had no nearby
cluster. -/
theorem blurbPhase_self (c2 : PostsCache) (clusterId blurb : String)
    (nearby : ℕ → List (String × ℚ × ℚ))
    (hfresh : c2.blurb clusterId = Option.none) :
    blurbPhase c2 clusterId blurb nearby clusterId =
      if ((nearby 3).isEmpty || (nearby 4).isEmpty || (nearby 5).isEmpty) = true then
        some blurb
      else Option.none := by
  unfold blurbPhase
  by_cases hemp : ((nearby 3).isEmpty || (nearby 4).isEmpty || (nearby 5).isEmpty) = true
  · rw [if_pos hemp, if_pos hemp]
    unfold upd1
    rw [if_pos rfl]
  · rw [if_neg hemp, if_neg hemp]
    rw [foldl_blurbDel]
    by_cases hdel : clusterId ∈ ((nearbyPairs nearby).map (fun pr => pr.2)).dedup ∧
        (cachedZooms.any (fun z => c2.size z clusterId == some 1)) = false
    · rw [if_pos hdel]
    · rw [if_neg hdel]
      exact hfresh

/-- Membership in the deleted-id list is membership in some zoom's nearby
set. -/
theorem mem_delIds_iff (nearby : ℕ → List (String × ℚ × ℚ)) (id : String) :
    id ∈ ((nearbyPairs nearby).map (fun pr => pr.2)).dedup ↔
      ∃ z ∈ cachedZooms, ∃ pr ∈ nearby z, pr.1 = id := by
  rw [List.mem_dedup]
  unfold nearbyPairs
  simp only [List.map_append, List.map_map, List.mem_append, List.mem_map,
    Function.comp_apply, cachedZooms, List.mem_cons, List.not_mem_nil, or_false]
  aesop

/-- The `zooms_new_cluster_was_merged_on` flags: some zoom saw no merge
exactly when some cached zoom's nearby set is empty. -/
theorem anyUnmerged_iff (nearby : ℕ → List (String × ℚ × ℚ)) :
    (((nearby 3).isEmpty || (nearby 4).isEmpty || (nearby 5).isEmpty) = true) ↔
      ∃ z ∈ cachedZooms, nearby z = [] := by
  simp only [Bool.or_eq_true, List.isEmpty_iff, cachedZooms, List.mem_cons,
    List.not_mem_nil, or_false]
  aesop

/-- C3: blurb policy of the cluster-index insert.  When `add_post_pt`
completes on a point whose id carries no blurb yet: (a) the blurb of every
id deleted on some zoom is cleared exactly when no zoom retains a size-1
cluster under that id after the new clusters are written, and is kept
unchanged otherwise; (b) a blurb is stored under the inserted cluster id
exactly when the new point merged with no nearby cluster on at least one
cached zoom. -/
theorem c3_blurb_policy (c : PostsCache) (clusterId : String) (x y : ℚ)
    (blurb : String) (nearby : ℕ → List (String × ℚ × ℚ))
    (hfresh : c.blurb clusterId = Option.none) :
    (addPostPt c clusterId x y blurb nearby).elim True (fun c' =>
      (∀ id, id ≠ clusterId →
        (∃ z ∈ cachedZooms, ∃ pr ∈ nearby z, pr.1 = id) →
        c'.blurb id =
          (if cachedZooms.any (fun z => c'.size z id == some 1) then c.blurb id
           else Option.none)) ∧
      (c'.blurb clusterId = some blurb ↔ ∃ z ∈ cachedZooms, nearby z = [])) := by
  unfold addPostPt
  cases hread : readSizesAndDel c (nearbyPairs nearby) with
  | none =>
    simp
  | some val =>
    obtain ⟨sizes, c1⟩ := val
    have hblurb1 : c1.blurb = c.blurb := readSizesAndDel_blurb _ _ _ _ hread
    refine ⟨?_, ?_⟩
    · intro id hid hdel
      show blurbPhase (writeNewClusters c1 clusterId x y nearby sizes)
          clusterId blurb nearby id =
        if cachedZooms.any (fun z =>
            (writeNewClusters c1 clusterId x y nearby sizes).size z id == some 1)
          then c.blurb id else Option.none
      rw [blurbPhase_ne _ _ _ _ _ hid]
      have hdel' : id ∈ ((nearbyPairs nearby).map (fun pr => pr.2)).dedup :=
        (mem_delIds_iff nearby id).mpr hdel
      by_cases hany : (cachedZooms.any (fun z =>
          (writeNewClusters c1 clusterId x y nearby sizes).size z id == some 1)) = true
      · rw [if_pos hany,
          if_neg (fun hcon => Bool.noConfusion (hany ▸ hcon.2))]
        rw [writeNewClusters_blurb, hblurb1]
      · have hany' : (cachedZooms.any (fun z =>
            (writeNewClusters c1 clusterId x y nearby sizes).size z id == some 1)) =
              false := by
          cases h : cachedZooms.any (fun z =>
            (writeNewClusters c1 clusterId x y nearby sizes).size z id == some 1)
          · rfl
          · exact absurd h hany
        rw [if_pos ⟨hdel', hany'⟩, if_neg hany]
    · show blurbPhase (writeNewClusters c1 clusterId x y nearby sizes)
          clusterId blurb nearby clusterId = some blurb ↔
        ∃ z ∈ cachedZooms, nearby z = []
      have hfresh2 : (writeNewClusters c1 clusterId x y nearby sizes).blurb
          clusterId = Option.none := by
        rw [writeNewClusters_blurb, hblurb1]
        exact hfresh
      rw [blurbPhase_self _ _ _ _ hfresh2]
      by_cases hemp : ((nearby 3).isEmpty || (nearby 4).isEmpty ||
          (nearby 5).isEmpty) = true
      · rw [if_pos hemp]
        exact ⟨fun _ => (anyUnmerged_iff nearby).mp hemp, fun _ => rfl⟩
      · rw [if_neg hemp]
        constructor
        · intro h
          cases h
        · intro h
          exact absurd ((anyUnmerged_iff nearby).mpr h) hemp

/-- A concrete cache for the C3 witness: one cluster `"a"` of size 1 at
zoom 3, carrying a blurb. -/
def c3Cache : PostsCache :=
  { geo := fun z id => if z = 3 ∧ id = "a" then some (1, 0) else Option.none,
    size := fun z id => if z = 3 ∧ id = "a" then some 1 else Option.none,
    blurb := fun id => if id = "a" then some "A" else Option.none }

/-- Geosearch results for the C3 witness: `"a"` is nearby on zoom 3 only. -/
def c3Nearby : ℕ → List (String × ℚ × ℚ) :=
  fun z => if z = 3 then [("a", (1, 0))] else []

/-- Witness for C3 at a concrete insert of `"b"` merging with `"a"` on
zoom 3 and standing alone on zooms 4 and 5. -/
theorem c3_blurb_policy_witness :
    c3Cache.blurb "b" = Option.none ∧
    (addPostPt c3Cache "b" 0 0 "B" c3Nearby).elim True (fun c' =>
      (∀ id, id ≠ "b" →
        (∃ z ∈ cachedZooms, ∃ pr ∈ c3Nearby z, pr.1 = id) →
        c'.blurb id =
          (if cachedZooms.any (fun z => c'.size z id == some 1)
            then c3Cache.blurb id else Option.none)) ∧
      (c'.blurb "b" = some "B" ↔ ∃ z ∈ cachedZooms, c3Nearby z = [])) :=
  ⟨rfl, c3_blurb_policy c3Cache "b" 0 0 "B" c3Nearby rfl⟩

end Nearsay
